import Mathlib

/-!
Shallow embedding of the `brief` mail library (final `src/mail` iteration plus
`src/header.rs` and `src/message2.rs`). Strings are modelled as `List Char`
(the sequence of `char`s a Rust `&str` yields); fallible functions return
`Except`.
-/

namespace Brief

/-- The twelve forbidden characters of `src/mail/validate.rs`. -/
def FORBIDDEN_CHARS : List Char :=
  ['<', '>', '(', ')', '[', ']', '\\', ',', ';', ':', '@', '"']

/-- Rust `char::is_ascii`: the code point is at most 0x7F. -/
def isAsciiChar (c : Char) : Bool := c.toNat ≤ 0x7F

/-- `InvalidPartError` of `src/mail/mod.rs`. -/
inductive InvalidPartError where
  | IsEmpty
  | ContainsForbiddenCharacter (c : Char)
  | ContainsNonAsciiCharacter (c : Char)
  deriving DecidableEq, Repr

/-- `validate_part` of `src/mail/validate.rs`: empty check, then the first
non-ASCII character, then the first forbidden character. -/
def validate_part (part : List Char) : Except InvalidPartError Unit :=
  if part.isEmpty then
    Except.error InvalidPartError.IsEmpty
  else
    match part.find? (fun c => !(isAsciiChar c)) with
    | some c => Except.error (InvalidPartError.ContainsNonAsciiCharacter c)
    | none =>
      match part.find? (fun c => FORBIDDEN_CHARS.contains c) with
      | some f => Except.error (InvalidPartError.ContainsForbiddenCharacter f)
      | none => Except.ok ()

/-- `ParseAddressError` of `src/mail/address.rs`. -/
inductive ParseAddressError where
  | MissingUserOrDomain
  | InvalidUser (e : InvalidPartError)
  | InvalidDomain (e : InvalidPartError)
  deriving DecidableEq, Repr

/-- `Address` of `src/mail/address.rs` (two borrowed string slices). -/
structure Address where
  user : List Char
  domain : List Char
  deriving DecidableEq, Repr

/-- The derived `Default` impl on `Address`: both slices default to `""`. -/
def Address.default : Address := ⟨[], []⟩

/-- `Address::try_new` of `src/mail/address.rs`: validate the user (wrapped
`InvalidUser`), then the domain (wrapped `InvalidDomain`). -/
def Address.try_new (user domain : List Char) : Except ParseAddressError Address :=
  match validate_part user with
  | Except.error e => Except.error (ParseAddressError.InvalidUser e)
  | Except.ok _ =>
    match validate_part domain with
    | Except.error e => Except.error (ParseAddressError.InvalidDomain e)
    | Except.ok _ => Except.ok ⟨user, domain⟩

/-- Rust `value.rsplitn(2, sep)` read off as a pair: split at the LAST
occurrence of `sep` into (text before it, text after it); `none` when `sep`
does not occur (`value.contains(sep)` is false). -/
def rsplitOnce (sep : Char) : List Char → Option (List Char × List Char)
  | [] => none
  | c :: cs =>
    match rsplitOnce sep cs with
    | some (l, r) => some (c :: l, r)
    | none => if c = sep then some ([], cs) else none

/-- Rust `value.split_once(sep)`: split at the FIRST occurrence of `sep`. -/
def splitOnce (sep : Char) : List Char → Option (List Char × List Char)
  | [] => none
  | c :: cs =>
    if c = sep then some ([], cs)
    else
      match splitOnce sep cs with
      | some (l, r) => some (c :: l, r)
      | none => none

/-- Rust `value.find(ch)` (position of the first occurrence; `none` when
absent). Positions are counted in characters, which is order-isomorphic to
the byte offsets Rust returns. -/
def strFind (target : Char) : List Char → Option Nat
  | [] => none
  | c :: cs => if c = target then some 0 else (strFind target cs).map (· + 1)

/-- `TryFrom<&str> for Address` of `src/mail/address.rs`: no `@` fails
`MissingUserOrDomain`; otherwise split on the rightmost `@`, validate user
then domain, then delegate to `try_new`. -/
def Address.tryFrom (value : List Char) : Except ParseAddressError Address :=
  match rsplitOnce '@' value with
  | none => Except.error ParseAddressError.MissingUserOrDomain
  | some (user, domain) =>
    match validate_part user with
    | Except.error e => Except.error (ParseAddressError.InvalidUser e)
    | Except.ok _ =>
      match validate_part domain with
      | Except.error e => Except.error (ParseAddressError.InvalidDomain e)
      | Except.ok _ => Address.try_new user domain

/-- `ParseMailboxError` of `src/mail/mailbox.rs`. -/
inductive ParseMailboxError where
  | MissingAngleBrackets
  | MissingOpeningAngleBracket
  | MissingClosingAngleBracket
  | WrongOrderAngleBrackets
  | InvalidName (e : InvalidPartError)
  | InvalidAddress (e : ParseAddressError)
  deriving DecidableEq, Repr

/-- `Mailbox` of `src/mail/mailbox.rs`. -/
structure Mailbox where
  name : Option (List Char)
  address : Address
  deriving DecidableEq, Repr

/-- `Mailbox::try_new` of `src/mail/mailbox.rs`: validate the name when
present (wrapped `InvalidName`); the address is taken as already valid. -/
def Mailbox.try_new (name : Option (List Char)) (address : Address) :
    Except ParseMailboxError Mailbox :=
  match name with
  | some n =>
    match validate_part n with
    | Except.error e => Except.error (ParseMailboxError.InvalidName e)
    | Except.ok _ => Except.ok ⟨some n, address⟩
  | none => Except.ok ⟨none, address⟩

/-- `TryFrom<&str> for Mailbox` of `src/mail/mailbox.rs`: 4-way classification
on `value.find('<')` / `value.find('>')`, then split at the first `<` and the
first `>`; the prefix (untrimmed, unvalidated) is the name when non-empty, the
interior is parsed as an `Address`, the suffix is discarded. The two `none`
fallbacks after the classification model the source's `unwrap()`s and are
unreachable there. -/
def Mailbox.tryFrom (value : List Char) : Except ParseMailboxError Mailbox :=
  match strFind '<' value, strFind '>' value with
  | none, none => Except.error ParseMailboxError.MissingAngleBrackets
  | none, some _ => Except.error ParseMailboxError.MissingOpeningAngleBracket
  | some _, none => Except.error ParseMailboxError.MissingClosingAngleBracket
  | some left, some right =>
    if left > right then Except.error ParseMailboxError.WrongOrderAngleBrackets
    else
      match splitOnce '<' value with
      | none => Except.error ParseMailboxError.MissingAngleBrackets
      | some (name_str, rest) =>
        match splitOnce '>' rest with
        | none => Except.error ParseMailboxError.MissingClosingAngleBracket
        | some (address_str, _) =>
          let name := if name_str.isEmpty then none else some name_str
          match Address.tryFrom address_str with
          | Except.error e => Except.error (ParseMailboxError.InvalidAddress e)
          | Except.ok address => Except.ok ⟨name, address⟩

/-- `EmailAddress` of `src/header.rs`. -/
structure EmailAddress where
  address : List Char
  deriving DecidableEq, Repr

/-- The derived `Default` impl on `EmailAddress`: the empty string. -/
def EmailAddress.default : EmailAddress := ⟨[]⟩

/-- `Header` of `src/header.rs` (closed set; one variant). -/
inductive Header where
  | ReturnPath (a : EmailAddress)
  deriving DecidableEq, Repr

/-- `Header::name` of `src/header.rs`. -/
def Header.name : Header → List Char
  | Header.ReturnPath _ => "Return-Path".toList

/-- `Header::body` of `src/header.rs`: `format!("<{}>", "email@addres.com")` —
the payload is ignored and a literal placeholder is rendered. -/
def Header.body : Header → List Char
  | Header.ReturnPath _ => '<' :: ("email@addres.com".toList ++ ['>'])

/-- `ToString for Header` of `src/header.rs`: `format!("{}: {}", name, body)`. -/
def Header.to_string (h : Header) : List Char :=
  h.name ++ (": ".toList ++ h.body)

/-- `Message` of `src/message2.rs` (fields `from` / `to`, renamed since `from`
is a Lean keyword). -/
structure Message where
  fromAddr : EmailAddress
  toAddr : EmailAddress
  deriving DecidableEq, Repr

/-- `MessageBuilder<FROM, TO>` of `src/message2.rs`: the `Yes`/`No` phantom
markers become a pair of `Bool` indices. -/
structure MessageBuilder (FROM TO : Bool) where
  fromAddr : EmailAddress
  toAddr : EmailAddress
  deriving DecidableEq, Repr

/-- `message_builder()` of `src/message2.rs`: the default builder in state
`(No, No)`. -/
def message_builder : MessageBuilder false false :=
  ⟨EmailAddress.default, EmailAddress.default⟩

/-- `MessageBuilder::<No, TO>::from` of `src/message2.rs` (renamed `setFrom`):
only available while the from slot is unset; writes it, carries the to slot. -/
def MessageBuilder.setFrom {TO : Bool} (b : MessageBuilder false TO)
    (f : EmailAddress) : MessageBuilder true TO :=
  ⟨f, b.toAddr⟩

/-- `MessageBuilder::<FROM, No>::to` of `src/message2.rs` (renamed `setTo`):
only available while the to slot is unset; writes it, carries the from slot. -/
def MessageBuilder.setTo {FROM : Bool} (b : MessageBuilder FROM false)
    (t : EmailAddress) : MessageBuilder FROM true :=
  ⟨b.fromAddr, t⟩

/-- `MessageBuilder::<Yes, Yes>::build` of `src/message2.rs`: only available
in state `(Set, Set)`. -/
def MessageBuilder.build (b : MessageBuilder true true) : Message :=
  ⟨b.fromAddr, b.toAddr⟩

instance {ε α : Type} [DecidableEq ε] [DecidableEq α] : DecidableEq (Except ε α)
  | Except.error a, Except.error b =>
    if h : a = b then isTrue (by rw [h]) else isFalse (by intro hc; cases hc; exact h rfl)
  | Except.error _, Except.ok _ => isFalse (by intro hc; cases hc)
  | Except.ok _, Except.error _ => isFalse (by intro hc; cases hc)
  | Except.ok a, Except.ok b =>
    if h : a = b then isTrue (by rw [h]) else isFalse (by intro hc; cases hc; exact h rfl)

/-! ## Helper lemmas about the embedded operations -/

/-- On a non-empty part, `validate_part` lands in exactly one of the three
remaining outcomes, scanning non-ASCII before forbidden characters. -/
theorem validate_part_result (s : List Char) (hs : s ≠ []) :
    (∃ c ∈ s, isAsciiChar c = false ∧
       validate_part s = Except.error (InvalidPartError.ContainsNonAsciiCharacter c)) ∨
    ((∀ c ∈ s, isAsciiChar c = true) ∧ ∃ c ∈ s, c ∈ FORBIDDEN_CHARS ∧
       validate_part s = Except.error (InvalidPartError.ContainsForbiddenCharacter c)) ∨
    ((∀ c ∈ s, isAsciiChar c = true) ∧ (∀ c ∈ s, c ∉ FORBIDDEN_CHARS) ∧
       validate_part s = Except.ok ()) := by
  unfold validate_part
  rw [if_neg (by simpa using hs)]
  cases hf : s.find? (fun c => !(isAsciiChar c)) with
  | some c =>
    refine Or.inl ⟨c, List.mem_of_find?_eq_some hf, ?_, rfl⟩
    have := List.find?_some hf
    simpa using this
  | none =>
    have hall : ∀ c ∈ s, isAsciiChar c = true := by
      intro c hc
      have := List.find?_eq_none.mp hf c hc
      simpa using this
    cases hg : s.find? (fun c => FORBIDDEN_CHARS.contains c) with
    | some f =>
      refine Or.inr (Or.inl ⟨hall, f, List.mem_of_find?_eq_some hg, ?_, rfl⟩)
      have := List.find?_some hg
      simpa using this
    | none =>
      refine Or.inr (Or.inr ⟨hall, ?_, rfl⟩)
      intro c hc
      have := List.find?_eq_none.mp hg c hc
      simpa using this

/-- `validate_part` succeeds exactly on non-empty, all-ASCII,
forbidden-free parts. -/
theorem validate_part_eq_ok_iff (s : List Char) :
    validate_part s = Except.ok () ↔
      (s ≠ [] ∧ (∀ c ∈ s, isAsciiChar c = true) ∧ (∀ c ∈ s, c ∉ FORBIDDEN_CHARS)) := by
  constructor
  · intro h
    have hs : s ≠ [] := by
      intro he
      subst he
      exact Except.noConfusion h
    rcases validate_part_result s hs with ⟨c, hm, hc, he⟩ | ⟨_, c, hm, hc, he⟩ | ⟨ha, hn, _⟩
    · rw [he] at h; exact Except.noConfusion h
    · rw [he] at h; exact Except.noConfusion h
    · exact ⟨hs, ha, hn⟩
  · rintro ⟨hs, ha, hn⟩
    rcases validate_part_result s hs with ⟨c, hm, hc, he⟩ | ⟨_, c, hm, hc, he⟩ | ⟨_, _, he⟩
    · exact absurd (ha c hm) (by simp [hc])
    · exact absurd hc (hn c hm)
    · exact he

/-- `rsplitOnce` finds nothing exactly when the separator is absent
(Rust `!value.contains(sep)`). -/
theorem rsplitOnce_eq_none_iff (sep : Char) :
    ∀ (s : List Char), rsplitOnce sep s = none ↔ sep ∉ s := by
  intro s
  induction s with
  | nil => simp [rsplitOnce]
  | cons c cs ih =>
    simp only [rsplitOnce]
    cases h : rsplitOnce sep cs with
    | some p =>
      have hm : sep ∈ cs := by
        by_contra hns
        exact Option.noConfusion ((ih.mpr hns).symm.trans h)
      simp [hm]
    | none =>
      have hns : sep ∉ cs := ih.mp h
      by_cases hc : c = sep
      · subst hc; simp
      · have hc2 : ¬sep = c := fun hx => hc hx.symm
        simp [hc, hns, hc2]

/-- `rsplitOnce` splits at the last separator: with no separator in the
right piece, `u ++ sep :: d` splits into `(u, d)`. -/
theorem rsplitOnce_append (sep : Char) (d : List Char) (hd : sep ∉ d) :
    ∀ (u : List Char), rsplitOnce sep (u ++ sep :: d) = some (u, d) := by
  intro u
  induction u with
  | nil =>
    simp only [List.nil_append, rsplitOnce]
    rw [(rsplitOnce_eq_none_iff sep d).mpr hd]
    simp
  | cons c cs ih =>
    simp only [List.cons_append, rsplitOnce, List.append_eq, ih]

/-- `splitOnce` splits at the first separator: with no separator in the left
piece, `p ++ sep :: r` splits into `(p, r)`. -/
theorem splitOnce_append (sep : Char) (r : List Char) :
    ∀ (p : List Char), sep ∉ p → splitOnce sep (p ++ sep :: r) = some (p, r) := by
  intro p
  induction p with
  | nil => intro _; simp [splitOnce]
  | cons c cs ih =>
    intro hp
    have hc : c ≠ sep := fun h => hp (by simp [h])
    have hcs : sep ∉ cs := fun h => hp (List.mem_cons_of_mem _ h)
    simp only [List.cons_append, splitOnce, if_neg hc, List.append_eq, ih hcs]

/-- `strFind` finds nothing exactly when the character is absent. -/
theorem strFind_eq_none_iff (a : Char) :
    ∀ (s : List Char), strFind a s = none ↔ a ∉ s := by
  intro s
  induction s with
  | nil => simp [strFind]
  | cons c cs ih =>
    simp only [strFind]
    by_cases hc : c = a
    · subst hc; simp
    · cases h : strFind a cs with
      | some n =>
        have : a ∈ cs := by
          by_contra hns
          exact Option.noConfusion ((ih.mpr hns).symm.trans h)
        simp [hc, this]
      | none =>
        have hc2 : ¬a = c := fun hx => hc hx.symm
        simp [hc, ih.mp h, hc2]

/-- Skipping a separator-free left piece shifts the found position by its
length. -/
theorem strFind_append (a : Char) (r : List Char) :
    ∀ (l : List Char), a ∉ l →
      strFind a (l ++ r) = (strFind a r).map (· + l.length) := by
  intro l
  induction l with
  | nil =>
    intro _
    cases h : strFind a r <;> simp [h]
  | cons c cs ih =>
    intro hl
    have hc : c ≠ a := fun h => hl (by simp [h])
    have hcs : a ∉ cs := fun h => hl (List.mem_cons_of_mem _ h)
    simp only [List.cons_append, strFind, if_neg hc, List.append_eq, ih hcs]
    cases h : strFind a r <;> simp [h, Nat.add_assoc]

/-- `Address::try_new` when the user fails validation. -/
theorem try_new_invalidUser (u d : List Char) (e : InvalidPartError)
    (hu : validate_part u = Except.error e) :
    Address.try_new u d = Except.error (ParseAddressError.InvalidUser e) := by
  unfold Address.try_new
  rw [hu]

/-- `Address::try_new` when the user passes and the domain fails. -/
theorem try_new_invalidDomain (u d : List Char) (e : InvalidPartError)
    (hu : validate_part u = Except.ok ()) (hd : validate_part d = Except.error e) :
    Address.try_new u d = Except.error (ParseAddressError.InvalidDomain e) := by
  unfold Address.try_new
  rw [hu, hd]

/-- `Address::try_new` when both parts pass. -/
theorem try_new_ok (u d : List Char)
    (hu : validate_part u = Except.ok ()) (hd : validate_part d = Except.ok ()) :
    Address.try_new u d = Except.ok ⟨u, d⟩ := by
  unfold Address.try_new
  rw [hu, hd]

/-- `Address::try_new` always lands in one of its three own outcomes. -/
theorem try_new_result (u d : List Char) :
    (Address.try_new u d = Except.ok ⟨u, d⟩ ∧
       validate_part u = Except.ok () ∧ validate_part d = Except.ok ()) ∨
    (∃ e, Address.try_new u d = Except.error (ParseAddressError.InvalidUser e)) ∨
    (∃ e, Address.try_new u d = Except.error (ParseAddressError.InvalidDomain e)) := by
  cases hu : validate_part u with
  | error e => exact Or.inr (Or.inl ⟨e, try_new_invalidUser u d e hu⟩)
  | ok v =>
    cases v
    cases hd : validate_part d with
    | error e => exact Or.inr (Or.inr ⟨e, try_new_invalidDomain u d e hu hd⟩)
    | ok w =>
      cases w
      exact Or.inl ⟨try_new_ok u d hu hd, rfl, rfl⟩

/-- `TryFrom<&str> for Address` on a string whose rightmost `@` separates
`u` from `d`. -/
theorem address_tryFrom_split (u d : List Char) (hd : '@' ∉ d) :
    Address.tryFrom (u ++ '@' :: d) =
      (match validate_part u with
       | Except.error e => Except.error (ParseAddressError.InvalidUser e)
       | Except.ok _ =>
         match validate_part d with
         | Except.error e => Except.error (ParseAddressError.InvalidDomain e)
         | Except.ok _ => Address.try_new u d) := by
  unfold Address.tryFrom
  rw [rsplitOnce_append '@' d hd u]

/-- `TryFrom<&str> for Mailbox` in the ordered-brackets case: the input
decomposes as `pre ++ '<' :: mid ++ '>' :: suf` with the first `<` at
`|pre|` and the first `>` right after `mid`. -/
theorem mailbox_proceed (pre mid suf : List Char)
    (h1 : '<' ∉ pre) (h2 : '>' ∉ pre) (h3 : '>' ∉ mid) :
    Mailbox.tryFrom (pre ++ '<' :: (mid ++ '>' :: suf)) =
      (match Address.tryFrom mid with
       | Except.error e => Except.error (ParseMailboxError.InvalidAddress e)
       | Except.ok a => Except.ok ⟨if pre.isEmpty then none else some pre, a⟩) := by
  have hf1 : strFind '<' (pre ++ '<' :: (mid ++ '>' :: suf)) = some pre.length := by
    rw [strFind_append '<' _ pre h1]
    simp [strFind]
  have hassoc : pre ++ '<' :: (mid ++ '>' :: suf) = (pre ++ '<' :: mid) ++ '>' :: suf := by
    simp
  have hnotin : '>' ∉ pre ++ '<' :: mid := by
    intro hm
    rcases List.mem_append.mp hm with h | h
    · exact h2 h
    · rcases List.mem_cons.mp h with h | h
      · exact absurd h (by decide)
      · exact h3 h
  obtain ⟨r, hf2, hr⟩ :
      ∃ r, strFind '>' (pre ++ '<' :: (mid ++ '>' :: suf)) = some r ∧ pre.length ≤ r := by
    rw [hassoc, strFind_append '>' _ _ hnotin]
    refine ⟨0 + (pre ++ '<' :: mid).length, by simp [strFind], ?_⟩
    simp [List.length_append]
  simp only [Mailbox.tryFrom, hf1, hf2]
  rw [if_neg (by omega)]
  simp only [splitOnce_append '<' (mid ++ '>' :: suf) pre h1,
    splitOnce_append '>' suf mid h3]

/-- `Mailbox::try_new` always lands in one of its two own outcomes. -/
theorem mailbox_try_new_result (nm : Option (List Char)) (addr : Address) :
    (Mailbox.try_new nm addr = Except.ok ⟨nm, addr⟩ ∧
       ∀ x, nm = some x → validate_part x = Except.ok ()) ∨
    (∃ x e, nm = some x ∧ validate_part x = Except.error e ∧
       Mailbox.try_new nm addr = Except.error (ParseMailboxError.InvalidName e)) := by
  cases nm with
  | none =>
    refine Or.inl ⟨rfl, ?_⟩
    intro x hx
    cases hx
  | some x =>
    cases hv : validate_part x with
    | error e =>
      refine Or.inr ⟨x, e, rfl, hv, ?_⟩
      simp [Mailbox.try_new, hv]
    | ok v =>
      cases v
      refine Or.inl ⟨?_, ?_⟩
      · simp [Mailbox.try_new, hv]
      · intro y hy
        cases hy
        exact hv

/-! ## The claims -/

/-- C1: `validate_part` fails `IsEmpty` exactly on the empty string; a
non-empty string with a non-ASCII character fails
`ContainsNonAsciiCharacter` carrying such a character (this check runs before
the forbidden scan, so it wins even when forbidden characters are present
too); an all-ASCII string with a forbidden character fails
`ContainsForbiddenCharacter` carrying such a character; otherwise the
function succeeds. It is a pure total function. -/
theorem validate_part_spec (s : List Char) :
    (validate_part s = Except.error InvalidPartError.IsEmpty ↔ s = []) ∧
    ((s ≠ [] ∧ ∃ c ∈ s, isAsciiChar c = false) →
      ∃ c ∈ s, isAsciiChar c = false ∧
        validate_part s = Except.error (InvalidPartError.ContainsNonAsciiCharacter c)) ∧
    ((s ≠ [] ∧ (∀ c ∈ s, isAsciiChar c = true) ∧ ∃ c ∈ s, c ∈ FORBIDDEN_CHARS) →
      ∃ c ∈ s, c ∈ FORBIDDEN_CHARS ∧
        validate_part s = Except.error (InvalidPartError.ContainsForbiddenCharacter c)) ∧
    ((s ≠ [] ∧ (∀ c ∈ s, isAsciiChar c = true) ∧ (∀ c ∈ s, c ∉ FORBIDDEN_CHARS)) →
      validate_part s = Except.ok ()) := by
  refine ⟨⟨?_, ?_⟩, ?_, ?_, ?_⟩
  · intro h
    by_contra hs
    rcases validate_part_result s hs with ⟨c, -, -, he⟩ | ⟨-, c, -, -, he⟩ | ⟨-, -, he⟩ <;>
      rw [he] at h <;> simp at h
  · intro h
    subst h
    rfl
  · rintro ⟨hs, c0, hm0, hc0⟩
    rcases validate_part_result s hs with ⟨c, hm, hc, he⟩ | ⟨ha, -⟩ | ⟨ha, -⟩
    · exact ⟨c, hm, hc, he⟩
    · exact absurd (ha c0 hm0) (by simp [hc0])
    · exact absurd (ha c0 hm0) (by simp [hc0])
  · rintro ⟨hs, ha, c0, hm0, hc0⟩
    rcases validate_part_result s hs with ⟨c, hm, hc, -⟩ | ⟨-, c, hm, hc, he⟩ | ⟨-, hn, -⟩
    · exact absurd (ha c hm) (by simp [hc])
    · exact ⟨c, hm, hc, he⟩
    · exact absurd hc0 (hn c0 hm0)
  · rintro ⟨hs, ha, hn⟩
    exact (validate_part_eq_ok_iff s).mpr ⟨hs, ha, hn⟩

/-- C2: `Address` string parsing fails `MissingUserOrDomain` exactly when the
input has no `@`; otherwise it splits at the rightmost `@` and validates the
user (wrapped `InvalidUser`) then the domain (wrapped `InvalidDomain`),
returning `Address{user, domain}` on success; in particular every valid
`user`/`domain` pair round-trips through `user ++ "@" ++ domain`. -/
theorem address_tryFrom_spec (s user domain : List Char) :
    (Address.tryFrom s = Except.error ParseAddressError.MissingUserOrDomain ↔ '@' ∉ s) ∧
    (('@' ∉ domain ∧ s = user ++ '@' :: domain) →
      ((∀ e, validate_part user = Except.error e →
          Address.tryFrom s = Except.error (ParseAddressError.InvalidUser e)) ∧
       (∀ e, validate_part user = Except.ok () → validate_part domain = Except.error e →
          Address.tryFrom s = Except.error (ParseAddressError.InvalidDomain e)) ∧
       (validate_part user = Except.ok () → validate_part domain = Except.ok () →
          Address.tryFrom s = Except.ok ⟨user, domain⟩))) ∧
    ((user ≠ [] ∧ domain ≠ [] ∧ (∀ c ∈ user, isAsciiChar c = true) ∧
        (∀ c ∈ domain, isAsciiChar c = true) ∧ (∀ c ∈ user, c ∉ FORBIDDEN_CHARS) ∧
        (∀ c ∈ domain, c ∉ FORBIDDEN_CHARS)) →
      Address.tryFrom (user ++ '@' :: domain) = Except.ok ⟨user, domain⟩) := by
  refine ⟨⟨?_, ?_⟩, ?_, ?_⟩
  · intro h
    rw [← rsplitOnce_eq_none_iff '@' s]
    cases hr : rsplitOnce '@' s with
    | none => rfl
    | some p =>
      obtain ⟨u, d⟩ := p
      exfalso
      unfold Address.tryFrom at h
      rw [hr] at h
      cases hu : validate_part u with
      | error e => simp [hu] at h
      | ok v =>
        cases v
        cases hd : validate_part d with
        | error e => simp [hu, hd] at h
        | ok w =>
          cases w
          simp [hu, hd, try_new_ok u d hu hd] at h
  · intro h
    unfold Address.tryFrom
    rw [(rsplitOnce_eq_none_iff '@' s).mpr h]
  · rintro ⟨hd, rfl⟩
    refine ⟨?_, ?_, ?_⟩
    · intro e he
      rw [address_tryFrom_split user domain hd, he]
    · intro e hu he
      rw [address_tryFrom_split user domain hd, hu, he]
    · intro hu hde
      rw [address_tryFrom_split user domain hd, hu, hde, try_new_ok user domain hu hde]
  · rintro ⟨hu1, hd1, hu2, hd2, hu3, hd3⟩
    have hu : validate_part user = Except.ok () :=
      (validate_part_eq_ok_iff user).mpr ⟨hu1, hu2, hu3⟩
    have hdv : validate_part domain = Except.ok () :=
      (validate_part_eq_ok_iff domain).mpr ⟨hd1, hd2, hd3⟩
    have hdna : '@' ∉ domain := fun hm => hd3 '@' hm (by decide)
    rw [address_tryFrom_split user domain hdna, hu, hdv, try_new_ok user domain hu hdv]

/-- C3: `Mailbox` string parsing classifies on the first `<` and first `>`:
neither present fails `MissingAngleBrackets`, only `>` fails
`MissingOpeningAngleBracket`, only `<` fails `MissingClosingAngleBracket`,
first `<` after first `>` fails the wrong-order variant (named
`WrongOrderAngleBrackets` in the code); otherwise the text strictly between
the first `<` and the first `>` is parsed as an `Address` (failure wrapped
`InvalidAddress`), everything after the first `>` is discarded, and on
success the result is `Mailbox{name, address}`. -/
theorem mailbox_tryFrom_spec (s pre mid suf : List Char) :
    (('<' ∉ s ∧ '>' ∉ s) →
      Mailbox.tryFrom s = Except.error ParseMailboxError.MissingAngleBrackets) ∧
    (('<' ∉ s ∧ '>' ∈ s) →
      Mailbox.tryFrom s = Except.error ParseMailboxError.MissingOpeningAngleBracket) ∧
    (('<' ∈ s ∧ '>' ∉ s) →
      Mailbox.tryFrom s = Except.error ParseMailboxError.MissingClosingAngleBracket) ∧
    (∀ l r, strFind '<' s = some l → strFind '>' s = some r → r < l →
      Mailbox.tryFrom s = Except.error ParseMailboxError.WrongOrderAngleBrackets) ∧
    (('<' ∉ pre ∧ '>' ∉ pre ∧ '>' ∉ mid) →
      ((∀ e, Address.tryFrom mid = Except.error e →
          Mailbox.tryFrom (pre ++ '<' :: (mid ++ '>' :: suf)) =
            Except.error (ParseMailboxError.InvalidAddress e)) ∧
       (∀ a, Address.tryFrom mid = Except.ok a →
          Mailbox.tryFrom (pre ++ '<' :: (mid ++ '>' :: suf)) =
            Except.ok ⟨if pre.isEmpty then none else some pre, a⟩))) := by
  refine ⟨?_, ?_, ?_, ?_, ?_⟩
  · rintro ⟨h1, h2⟩
    unfold Mailbox.tryFrom
    rw [(strFind_eq_none_iff '<' s).mpr h1, (strFind_eq_none_iff '>' s).mpr h2]
  · rintro ⟨h1, h2⟩
    unfold Mailbox.tryFrom
    rw [(strFind_eq_none_iff '<' s).mpr h1]
    cases hr : strFind '>' s with
    | none => exact absurd h2 ((strFind_eq_none_iff '>' s).mp hr)
    | some r => rfl
  · rintro ⟨h1, h2⟩
    unfold Mailbox.tryFrom
    rw [(strFind_eq_none_iff '>' s).mpr h2]
    cases hl : strFind '<' s with
    | none => exact absurd h1 ((strFind_eq_none_iff '<' s).mp hl)
    | some l => rfl
  · intro l r hl hr hlt
    simp [Mailbox.tryFrom, hl, hr, hlt]
  · rintro ⟨h1, h2, h3⟩
    constructor
    · intro e he
      rw [mailbox_proceed pre mid suf h1 h2 h3, he]
    · intro a ha
      rw [mailbox_proceed pre mid suf h1 h2 h3, ha]

/-- C4 (code bug): `TryFrom<&str> for Mailbox` neither trims nor validates the
display-name prefix: `"My Name <user@domain.com>"` parses with the trailing
space kept in the name, and a prefix containing `:` — which `validate_part`
rejects — still parses successfully instead of failing `InvalidName`. -/
theorem mailbox_name_not_validated :
    Mailbox.tryFrom ("My Name <user@domain.com>".toList) =
      Except.ok ⟨some ("My Name ".toList), ⟨"user".toList, "domain.com".toList⟩⟩ ∧
    Mailbox.tryFrom ("My: Name <user@domain.com>".toList) =
      Except.ok ⟨some ("My: Name ".toList), ⟨"user".toList, "domain.com".toList⟩⟩ ∧
    validate_part ("My: Name ".toList) =
      Except.error (InvalidPartError.ContainsForbiddenCharacter ':') := by
  refine ⟨by decide, by decide, by decide⟩

/-- C5 (counterexample): `TryFrom<&str> for Mailbox` does NOT trim its input:
a leading space changes the parse result, and a valid bracket form surrounded
by spaces parses with `name = Some(" ")`, not with the name absent. -/
theorem mailbox_tryFrom_no_trim :
    Mailbox.tryFrom (" <user@domain.com>".toList) ≠
      Mailbox.tryFrom ("<user@domain.com>".toList) ∧
    Mailbox.tryFrom (" <user@domain.com> ".toList) =
      Except.ok ⟨some [' '], ⟨"user".toList, "domain.com".toList⟩⟩ ∧
    Mailbox.tryFrom ("<user@domain.com>".toList) =
      Except.ok ⟨none, ⟨"user".toList, "domain.com".toList⟩⟩ := by
  refine ⟨by decide, by decide, by decide⟩

/-- C5 (amended): the parse does not trim; a valid `<...>` form surrounded by
whitespace still parses successfully, but the leading whitespace becomes the
display name (the trailing whitespace, after the first `>`, is discarded). -/
theorem mailbox_tryFrom_whitespace_name (ws mid : List Char) (a : Address)
    (hw : ∀ c ∈ ws, c = ' ') (hne : ws ≠ [])
    (ha : Address.tryFrom mid = Except.ok a) (hmid : '>' ∉ mid) :
    Mailbox.tryFrom (ws ++ '<' :: (mid ++ '>' :: ws)) = Except.ok ⟨some ws, a⟩ := by
  have h1 : '<' ∉ ws := fun hm => absurd (hw _ hm) (by decide)
  have h2 : '>' ∉ ws := fun hm => absurd (hw _ hm) (by decide)
  rw [mailbox_proceed ws mid ws h1 h2 hmid, ha]
  have hemp : ws.isEmpty = false := by
    cases ws with
    | nil => exact absurd rfl hne
    | cons c cs => rfl
  simp [hemp]

/-- C5 (witness for the amended claim): one concrete space around a valid
address form. -/
theorem mailbox_tryFrom_whitespace_name_witness :
    Mailbox.tryFrom ([' '] ++ '<' :: ("user@domain.com".toList ++ '>' :: [' '])) =
      Except.ok ⟨some [' '], ⟨"user".toList, "domain.com".toList⟩⟩ :=
  mailbox_tryFrom_whitespace_name [' '] ("user@domain.com".toList)
    ⟨"user".toList, "domain.com".toList⟩ (by decide) (by decide) (by decide) (by decide)

/-- C6 (code bug): `Header::name` and the `to_string` framing are as claimed,
but `Header::body` ignores its payload and renders the hardcoded placeholder
`<email@addres.com>` instead of the supplied address. -/
theorem header_body_hardcoded :
    (Header.ReturnPath ⟨"user@domain.com".toList⟩).name = "Return-Path".toList ∧
    (Header.ReturnPath ⟨"user@domain.com".toList⟩).body = "<email@addres.com>".toList ∧
    (Header.ReturnPath ⟨"user@domain.com".toList⟩).body ≠ "<user@domain.com>".toList ∧
    Header.to_string (Header.ReturnPath ⟨"user@domain.com".toList⟩) =
      "Return-Path: <email@addres.com>".toList := by
  refine ⟨by decide, by decide, by decide, by decide⟩

/-- C7 (counterexample): the derived `Default` impl is a public construction
path yielding `Address { user: "", domain: "" }`, whose parts both fail
`validate_part` — so not every publicly obtainable `Address` is valid. -/
theorem address_default_invalid :
    validate_part Address.default.user = Except.error InvalidPartError.IsEmpty ∧
    validate_part Address.default.domain = Except.error InvalidPartError.IsEmpty :=
  ⟨rfl, rfl⟩

/-- C7 (amended): every `Address` produced by the validated construction
paths `try_new` and `TryFrom<&str>` has a user and a domain that both pass
`validate_part`; only the derived `Default` escape hatch violates this. -/
theorem address_validated_paths (user domain s : List Char) (a b : Address) :
    (Address.try_new user domain = Except.ok a →
      validate_part a.user = Except.ok () ∧ validate_part a.domain = Except.ok ()) ∧
    (Address.tryFrom s = Except.ok b →
      validate_part b.user = Except.ok () ∧ validate_part b.domain = Except.ok ()) := by
  constructor
  · intro h
    rcases try_new_result user domain with ⟨hok, hu, hdv⟩ | ⟨e, he⟩ | ⟨e, he⟩
    · injection hok.symm.trans h with h2
      subst h2
      exact ⟨hu, hdv⟩
    · rw [he] at h
      exact Except.noConfusion h
    · rw [he] at h
      exact Except.noConfusion h
  · intro h
    cases hr : rsplitOnce '@' s with
    | none =>
      unfold Address.tryFrom at h
      rw [hr] at h
      exact Except.noConfusion h
    | some p =>
      obtain ⟨u, d⟩ := p
      unfold Address.tryFrom at h
      rw [hr] at h
      cases hu : validate_part u with
      | error e => simp [hu] at h
      | ok v =>
        cases v
        cases hdv : validate_part d with
        | error e => simp [hu, hdv] at h
        | ok w =>
          cases w
          simp only [hu, hdv] at h
          rcases try_new_result u d with ⟨hok, hu2, hd2⟩ | ⟨e, he⟩ | ⟨e, he⟩
          · injection hok.symm.trans h with h2
            subst h2
            exact ⟨hu2, hd2⟩
          · rw [he] at h
            exact Except.noConfusion h
          · rw [he] at h
            exact Except.noConfusion h

/-- C8: from the initial builder state, setting from then to then building
succeeds and yields exactly `Message{from, to}` with the supplied addresses;
the typestate indices make `setFrom`/`setTo` available only while the slot is
unset and `build` only in state `(Set, Set)`. -/
theorem builder_set_then_build (a b : EmailAddress) :
    ((message_builder.setFrom a).setTo b).build = ⟨a, b⟩ ∧
    ((message_builder.setFrom a).setTo b).build.fromAddr = a ∧
    ((message_builder.setFrom a).setTo b).build.toAddr = b :=
  ⟨rfl, rfl, rfl⟩

/-- C9: `Address::try_new` runs the two part validations (user first, wrapped
`InvalidUser`, then domain, wrapped `InvalidDomain`) and can never produce
`MissingUserOrDomain`; `Mailbox::try_new` validates only the name (wrapped
`InvalidName`, absent name accepted) and can never produce `InvalidAddress`
or a bracket error; each `try_new` succeeds exactly when its part arguments
pass `validate_part`. -/
theorem try_new_error_asymmetry (user domain n : List Char)
    (nm : Option (List Char)) (addr : Address) :
    (Address.try_new user domain ≠ Except.error ParseAddressError.MissingUserOrDomain) ∧
    (∀ e, validate_part user = Except.error e →
      Address.try_new user domain = Except.error (ParseAddressError.InvalidUser e)) ∧
    (∀ e, validate_part user = Except.ok () → validate_part domain = Except.error e →
      Address.try_new user domain = Except.error (ParseAddressError.InvalidDomain e)) ∧
    ((∃ x, Address.try_new user domain = Except.ok x) ↔
      (validate_part user = Except.ok () ∧ validate_part domain = Except.ok ())) ∧
    (∀ e, Mailbox.try_new nm addr ≠ Except.error (ParseMailboxError.InvalidAddress e)) ∧
    (Mailbox.try_new nm addr ≠ Except.error ParseMailboxError.MissingAngleBrackets) ∧
    (Mailbox.try_new nm addr ≠ Except.error ParseMailboxError.MissingOpeningAngleBracket) ∧
    (Mailbox.try_new nm addr ≠ Except.error ParseMailboxError.MissingClosingAngleBracket) ∧
    (Mailbox.try_new nm addr ≠ Except.error ParseMailboxError.WrongOrderAngleBrackets) ∧
    (∀ e, validate_part n = Except.error e →
      Mailbox.try_new (some n) addr = Except.error (ParseMailboxError.InvalidName e)) ∧
    (Mailbox.try_new none addr = Except.ok ⟨none, addr⟩) ∧
    ((∃ m, Mailbox.try_new (some n) addr = Except.ok m) ↔
      validate_part n = Except.ok ()) := by
  refine ⟨?_, ?_, ?_, ⟨?_, ?_⟩, ?_, ?_, ?_, ?_, ?_, ?_, ?_, ⟨?_, ?_⟩⟩
  · intro h
    rcases try_new_result user domain with ⟨hok, -, -⟩ | ⟨e, he⟩ | ⟨e, he⟩
    · rw [hok] at h
      simp at h
    · rw [he] at h
      simp at h
    · rw [he] at h
      simp at h
  · intro e he
    exact try_new_invalidUser user domain e he
  · intro e hu he
    exact try_new_invalidDomain user domain e hu he
  · rintro ⟨x, hx⟩
    rcases try_new_result user domain with ⟨-, hu, hdv⟩ | ⟨e, he⟩ | ⟨e, he⟩
    · exact ⟨hu, hdv⟩
    · rw [he] at hx
      exact Except.noConfusion hx
    · rw [he] at hx
      exact Except.noConfusion hx
  · rintro ⟨hu, hdv⟩
    exact ⟨⟨user, domain⟩, try_new_ok user domain hu hdv⟩
  · intro e h
    rcases mailbox_try_new_result nm addr with ⟨hok, -⟩ | ⟨x, e2, -, -, he⟩
    · rw [hok] at h
      simp at h
    · rw [he] at h
      simp at h
  · intro h
    rcases mailbox_try_new_result nm addr with ⟨hok, -⟩ | ⟨x, e2, -, -, he⟩
    · rw [hok] at h
      simp at h
    · rw [he] at h
      simp at h
  · intro h
    rcases mailbox_try_new_result nm addr with ⟨hok, -⟩ | ⟨x, e2, -, -, he⟩
    · rw [hok] at h
      simp at h
    · rw [he] at h
      simp at h
  · intro h
    rcases mailbox_try_new_result nm addr with ⟨hok, -⟩ | ⟨x, e2, -, -, he⟩
    · rw [hok] at h
      simp at h
    · rw [he] at h
      simp at h
  · intro h
    rcases mailbox_try_new_result nm addr with ⟨hok, -⟩ | ⟨x, e2, -, -, he⟩
    · rw [hok] at h
      simp at h
    · rw [he] at h
      simp at h
  · intro e he
    simp [Mailbox.try_new, he]
  · rfl
  · rintro ⟨m, hm⟩
    rcases mailbox_try_new_result (some n) addr with ⟨-, hval⟩ | ⟨x, e, -, -, he⟩
    · exact hval n rfl
    · rw [he] at hm
      exact Except.noConfusion hm
  · intro hv
    refine ⟨⟨some n, addr⟩, ?_⟩
    simp [Mailbox.try_new, hv]

/-- C10 (implicit): the two builder setters commute — both orders produce the
same built `Message` — and each setter writes only its own slot, carrying the
other through unchanged. -/
theorem builder_setters_commute (a b : EmailAddress) :
    ((message_builder.setFrom a).setTo b).build =
      ((message_builder.setTo b).setFrom a).build ∧
    (∀ (t : Bool) (x : MessageBuilder false t) (f : EmailAddress),
      (x.setFrom f).fromAddr = f ∧ (x.setFrom f).toAddr = x.toAddr) ∧
    (∀ (t : Bool) (x : MessageBuilder t false) (g : EmailAddress),
      (x.setTo g).toAddr = g ∧ (x.setTo g).fromAddr = x.fromAddr) :=
  ⟨rfl, fun _ _ _ => ⟨rfl, rfl⟩, fun _ _ _ => ⟨rfl, rfl⟩⟩

end Brief
